import Mathlib

/-!
# dist-ribut-us/message: the message header

A shallow embedding of `message.go`.  Machine integers are natural numbers:
a `uint32` is a `Nat` below `2^32`, a byte is a `Nat` below `256`.  A Go byte
slice is an `Option (List Nat)`, where `none` is the nil slice; a Go string is
the list of its bytes.
-/

namespace message

/-! ## Constants -/

/-- The width of the `uint32` fields of the header. -/
def u32 : Nat := 2 ^ 32

/-- Flag mask `QueryFlag = BitFlag(1 << iota)` with `iota = 0`. -/
def QueryFlag : Nat := 1 <<< 0
/-- Flag mask `ResponseFlag`, `1 << 1`. -/
def ResponseFlag : Nat := 1 <<< 1
/-- Flag mask `FromNet`, `1 << 2`. -/
def FromNet : Nat := 1 <<< 2
/-- Flag mask `ToNet`, `1 << 3`. -/
def ToNet : Nat := 1 <<< 3

/-- Type code `Undefined = Type(iota)`; the thirteen that follow count up. -/
def Undefined : Nat := 0
def GetPort : Nat := 1
def GetIP : Nat := 2
def RegisterService : Nat := 3
def Test : Nat := 4
def Ping : Nat := 5
def NetSend : Nat := 6
def NetReceive : Nat := 7
def AddBeacon : Nat := 8
def GetPubKey : Nat := 9
def Die : Nat := 10
def SessionData : Nat := 11
def StaticKey : Nat := 12
def RandomKey : Nat := 13

/-! ## Data model -/

/-- The byte sequence held by a Go slice: the nil slice holds none. -/
def seq (b : Option (List Nat)) : List Nat := b.getD []

/-- The wire Address Descriptor: `Ip []byte`, `Port uint32`, `Zone string`. -/
structure Addrpb where
  Ip : Option (List Nat)
  Port : Nat
  Zone : List Nat
  deriving DecidableEq, Repr

/-- The message envelope: `Type32`, `Id`, `Flags uint32`, `Body []byte` and
the optional pointer to an address descriptor. -/
structure Header where
  Type32 : Nat
  Id : Nat
  Flags : Nat
  Body : Option (List Nat)
  Addrpb : Option message.Addrpb
  deriving DecidableEq, Repr

/-- The value `&Header{}`: every field at its zero value. -/
def Header.zero : Header :=
  { Type32 := 0, Id := 0, Flags := 0, Body := none, Addrpb := none }

/-- The value `&Addrpb{}`. -/
def Addrpb.zero : message.Addrpb :=
  { Ip := none, Port := 0, Zone := [] }

/-- Modelled from the spec: the network address type `rnet.Addr` of the
networking module (IP bytes, numeric port, zone), whose declaration is not part
of the sources.  The port is a Go `int`. -/
structure rnet.Addr where
  IP : Option (List Nat)
  Port : Int
  Zone : List Nat
  deriving DecidableEq, Repr

/-! ## The fixed-width integer codec -/

/-- Byte order of the fixed-width integer codec. -/
inductive ByteOrder
  | little
  | big
  deriving DecidableEq, Repr

/-- Modelled from the spec: `serial.MarshalUint32(ui, nil)`, the fixed 4-byte
integer serialization of the companion module; the spec leaves the byte order
to the implementation, so it is an argument here. -/
def serial.MarshalUint32 (o : ByteOrder) (ui : Nat) : List Nat :=
  let u := ui % u32
  match o with
  | .little => [u % 256, u / 256 % 256, u / 65536 % 256, u / 16777216 % 256]
  | .big => [u / 16777216 % 256, u / 65536 % 256, u / 256 % 256, u % 256]

/-- Modelled from the spec: `serial.UnmarshalUint32(b)`, which decodes the first
4 bytes of `b` as an unsigned 32-bit integer, in the byte order of
`serial.MarshalUint32`.  On a slice of fewer than 4 bytes there is nothing to
decode and the result is `none` (an out-of-range read). -/
def serial.UnmarshalUint32 (o : ByteOrder) (b : List Nat) : Option Nat :=
  match b with
  | b0 :: b1 :: b2 :: b3 :: _ =>
    match o with
    | .little => some ((b0 + 256 * b1 + 65536 * b2 + 16777216 * b3) % u32)
    | .big => some ((b3 + 256 * b2 + 65536 * b1 + 16777216 * b0) % u32)
  | _ => none

/-! ## Bodies -/

/-- The dynamic values `SetBody` distinguishes: the nil interface, a `uint32`,
a `[]byte`, a `string`, a `proto.Message` (given by the outcome of marshalling
it: its bytes, or `none` when marshalling fails), and a value of any other
type. -/
inductive BodyValue
  | nil
  | uint32 (ui : Nat)
  | bytes (bts : Option (List Nat))
  | string (str : List Nat)
  | message (buf : Option (List Nat))
  | other
  deriving DecidableEq, Repr

/-- Method `SetBody`: set the body from a dynamic value; the header is returned. -/
def Header.SetBody (o : ByteOrder) (h : Header) (body : BodyValue) : Header :=
  match body with
  | .nil => { h with Body := none }
  | .uint32 ui => { h with Body := some (serial.MarshalUint32 o ui) }
  | .bytes bts => { h with Body := bts }
  | .string str => { h with Body := some str }
  | .message (some buf) => { h with Body := some buf }
  | .message none => h
  | .other => h

/-- Constructor `NewHeader(t, body)`; `rand` is the value drawn by `crypto.RandUint32()`. -/
def NewHeader (o : ByteOrder) (rand : Nat) (t : Nat) (body : BodyValue) : Header :=
  Header.SetBody o { Type32 := t, Id := rand, Flags := 0, Body := none, Addrpb := none } body

/-- Method `GetType`: the type code. -/
def Header.GetType (h : Header) : Nat := h.Type32

/-- Method `SetType`: store the type code. -/
def Header.SetType (h : Header) (t : Nat) : Header := { h with Type32 := t }

/-! ## Flags -/

/-- Method `CheckFlag`: `h.Flags&uint32(flag) == uint32(flag)`. -/
def Header.CheckFlag (h : Header) (flag : Nat) : Bool :=
  h.Flags &&& flag == flag

/-- Method `IsQuery`: `h.CheckFlag(QueryFlag)`. -/
def Header.IsQuery (h : Header) : Bool := h.CheckFlag QueryFlag
/-- Method `IsResponse`: `h.CheckFlag(ResponseFlag)`. -/
def Header.IsResponse (h : Header) : Bool := h.CheckFlag ResponseFlag
/-- Method `IsFromNet`: `h.CheckFlag(FromNet)`. -/
def Header.IsFromNet (h : Header) : Bool := h.CheckFlag FromNet
/-- Method `IsToNet`: `h.CheckFlag(ToNet)`. -/
def Header.IsToNet (h : Header) : Bool := h.CheckFlag ToNet

/-- Method `SetFlag`: `h.Flags |= uint32(flag)`. -/
def Header.SetFlag (h : Header) (flag : Nat) : Header :=
  { h with Flags := h.Flags ||| flag }

/-- Method `UnsetFlag`: `h.Flags ^= uint32(flag)`. -/
def Header.UnsetFlag (h : Header) (flag : Nat) : Header :=
  { h with Flags := h.Flags ^^^ flag }

/-! ## Body accessors -/

/-- Method `BodyToUint32`: zero on a body of fewer than 4 bytes, otherwise what
`serial.UnmarshalUint32` decodes; `none` stands for a run-time failure. -/
def Header.BodyToUint32 (o : ByteOrder) (h : Header) : Option Nat :=
  if (seq h.Body).length < 4 then some 0
  else serial.UnmarshalUint32 o (seq h.Body)

/-- Method `BodyString`: the body as a string, byte for byte. -/
def Header.BodyString (h : Header) : List Nat := seq h.Body

/-! ## Addresses -/

/-- Function `FromAddr`: the descriptor of a network address; the port is converted
with `uint32(...)`. -/
def FromAddr (addr : rnet.Addr) : message.Addrpb :=
  { Ip := addr.IP, Port := (addr.Port % (u32 : Int)).toNat, Zone := addr.Zone }

/-- Method `SetAddr`: attach the descriptor of `addr`; the header is returned. -/
def Header.SetAddr (h : Header) (addr : rnet.Addr) : Header :=
  { h with Addrpb := some (FromAddr addr) }

/-- Modelled from the spec: `rnet.NewAddr(ip, port, zone)` of the networking
module, the network address made of these IP bytes, port and zone. -/
def rnet.NewAddr (ip : Option (List Nat)) (port : Int) (zone : List Nat) : rnet.Addr :=
  { IP := ip, Port := port, Zone := zone }

/-- Method `GetAddr` of the descriptor: `rnet.NewAddr(a.Ip, int(a.Port), a.Zone)`. -/
def Addrpb.GetAddr (a : message.Addrpb) : rnet.Addr :=
  rnet.NewAddr a.Ip (a.Port : Int) a.Zone

/-- Method `GetAddr` of the header: nil when the header has no descriptor,
otherwise the address of the descriptor. -/
def Header.GetAddr (h : Header) : Option rnet.Addr :=
  match h.Addrpb with
  | none => none
  | some a => some a.GetAddr

/-! ## The wire codec

The schema-driven encoding of the header and of the address descriptor.  The
runtime (`proto.Marshal`, `proto.Unmarshal`) and the schema of the two messages
are not part of the sources; they are modelled from the wire-format tables of
the specification. -/

/-- Errors of the wire decoder; `outOfFuel` is never a decoder error, it marks
a recursion bound of this model that was too small. -/
inductive ProtoError
  | unexpectedEOF
  | overflow
  | illegalTag
  | badWireType
  | endGroup
  | invalidUTF8
  | outOfFuel
  deriving DecidableEq, Repr

/-- Wire type of a varint field. -/
def WireVarint : Nat := 0
/-- Wire type of a length-delimited field. -/
def WireBytes : Nat := 2

/-- Base-128 groups of `n`, least significant first, every byte but the last
with its top bit set; `k` bounds the number of groups. -/
def encodeVarintAux : Nat → Nat → List Nat
  | 0, _ => []
  | k + 1, n =>
    if n < 128 then [n] else (n % 128 + 128) :: encodeVarintAux k (n / 128)

/-- Modelled from the spec: the base-128 varint of a 64-bit unsigned value,
which has at most 10 groups. -/
def encodeVarint (n : Nat) : List Nat := encodeVarintAux 10 (n % 2 ^ 64)

/-- Read base-128 groups until a byte below 128; at most `k` bytes. -/
def decodeVarintAux : Nat → List Nat → Except ProtoError (Nat × List Nat)
  | 0, _ => .error .overflow
  | _ + 1, [] => .error .unexpectedEOF
  | k + 1, b :: bs =>
    if b < 128 then .ok (b, bs)
    else
      match decodeVarintAux k bs with
      | .ok (v, rest) => .ok (b % 128 + 128 * v, rest)
      | .error e => .error e

/-- Modelled from the spec: read one varint off the front of a buffer, as a
64-bit unsigned value, and return it with the rest of the buffer. -/
def decodeVarint (buf : List Nat) : Except ProtoError (Nat × List Nat) :=
  match decodeVarintAux 10 buf with
  | .ok (v, rest) => .ok (v % 2 ^ 64, rest)
  | .error e => .error e

/-- Scan the bytes of a string for well-formed UTF-8: `need` is the number of
continuation bytes the current character still lacks, and the next of them has
to lie in `lo..hi` (the second byte of a character has a narrower range after
0xE0, 0xED, 0xF0 and 0xF4, which excludes overlong forms, surrogates and code
points above U+10FFFF). -/
def utf8Scan : Nat → Nat → Nat → List Nat → Bool
  | need, _, _, [] => need == 0
  | 0, _, _, b :: bs =>
    if b < 0x80 then utf8Scan 0 0x80 0xBF bs
    else if b < 0xC2 then false
    else if b < 0xE0 then utf8Scan 1 0x80 0xBF bs
    else if b = 0xE0 then utf8Scan 2 0xA0 0xBF bs
    else if b = 0xED then utf8Scan 2 0x80 0x9F bs
    else if b < 0xF0 then utf8Scan 2 0x80 0xBF bs
    else if b = 0xF0 then utf8Scan 3 0x90 0xBF bs
    else if b < 0xF4 then utf8Scan 3 0x80 0xBF bs
    else if b = 0xF4 then utf8Scan 3 0x80 0x8F bs
    else false
  | need + 1, lo, hi, b :: bs =>
    if lo ≤ b ∧ b ≤ hi then utf8Scan need 0x80 0xBF bs else false

/-- Modelled from the spec: the zone is a UTF-8 string on the wire; the bytes
of a Go string are such a string when they are well-formed UTF-8. -/
def validUTF8 (s : List Nat) : Bool := utf8Scan 0 0x80 0xBF s

/-- The string field of a header, the zone of its address descriptor if it has
one, is valid UTF-8. -/
def Header.zoneValid (h : Header) : Bool :=
  match h.Addrpb with
  | none => true
  | some a => validUTF8 a.Zone

/-- The tag of a field: the varint of `(field << 3) | wiretype`. -/
def encodeTag (field wire : Nat) : List Nat := encodeVarint ((field <<< 3) ||| wire)

/-- Modelled from the spec: a `uint32` field, omitted when zero. -/
def encodeUint32Field (field v : Nat) : List Nat :=
  if v % u32 = 0 then [] else encodeTag field WireVarint ++ encodeVarint (v % u32)

/-- Modelled from the spec: a byte-sequence or string field, omitted when
empty. -/
def encodeBytesField (field : Nat) (b : List Nat) : List Nat :=
  if b.length = 0 then [] else encodeTag field WireBytes ++ encodeVarint b.length ++ b

/-- Modelled from the spec: an embedded message field, given by the encoding of
the embedded message, omitted when the message is absent. -/
def encodeMessageField (field : Nat) (m : Option (List Nat)) : List Nat :=
  match m with
  | none => []
  | some e => encodeTag field WireBytes ++ encodeVarint e.length ++ e

/-- Modelled from the spec: the Address Descriptor message, fields `ip = 1`
(bytes), `port = 2` (uint32), `zone = 3` (string). -/
def Addrpb.encode (a : message.Addrpb) : List Nat :=
  encodeBytesField 1 (seq a.Ip) ++ encodeUint32Field 2 a.Port ++ encodeBytesField 3 a.Zone

/-- Modelled from the spec: the Header message, fields `type32 = 1`, `id = 2`,
`flags = 3` (uint32), `body = 4` (bytes), `addrpb = 5` (embedded message). -/
def Header.encode (h : Header) : List Nat :=
  encodeUint32Field 1 h.Type32 ++ encodeUint32Field 2 h.Id ++ encodeUint32Field 3 h.Flags
    ++ encodeBytesField 4 (seq h.Body) ++ encodeMessageField 5 (h.Addrpb.map Addrpb.encode)

/-- Read a length-delimited value: a varint length, then that many bytes. -/
def readBytes (buf : List Nat) : Except ProtoError (List Nat × List Nat) :=
  match decodeVarint buf with
  | .error e => .error e
  | .ok (n, rest) =>
    if rest.length < n then .error .unexpectedEOF else .ok (rest.take n, rest.drop n)

/-- Skip the fields of a group up to and including its end-group tag. -/
def skipGroup : Nat → List Nat → Except ProtoError (List Nat)
  | _, [] => .error .unexpectedEOF
  | 0, _ :: _ => .error .outOfFuel
  | fuel + 1, b :: bs =>
    match decodeVarint (b :: bs) with
    | .error e => .error e
    | .ok (key, rest) =>
      let wire := key % 8
      if wire = 4 then .ok rest
      else if wire = 0 then
        match decodeVarint rest with
        | .error e => .error e
        | .ok (_, r) => skipGroup fuel r
      else if wire = 1 then
        if rest.length < 8 then .error .unexpectedEOF else skipGroup fuel (rest.drop 8)
      else if wire = 2 then
        match readBytes rest with
        | .error e => .error e
        | .ok (_, r) => skipGroup fuel r
      else if wire = 3 then
        match skipGroup fuel rest with
        | .error e => .error e
        | .ok r => skipGroup fuel r
      else if wire = 5 then
        if rest.length < 4 then .error .unexpectedEOF else skipGroup fuel (rest.drop 4)
      else .error .badWireType

/-- Modelled from the spec: skip the value of a field the schema does not
know, by its wire type. -/
def skipField (fuel wire : Nat) (buf : List Nat) : Except ProtoError (List Nat) :=
  if wire = 0 then
    match decodeVarint buf with
    | .error e => .error e
    | .ok (_, r) => .ok r
  else if wire = 1 then
    if buf.length < 8 then .error .unexpectedEOF else .ok (buf.drop 8)
  else if wire = 2 then
    match readBytes buf with
    | .error e => .error e
    | .ok (_, r) => .ok r
  else if wire = 3 then skipGroup fuel buf
  else if wire = 5 then
    if buf.length < 4 then .error .unexpectedEOF else .ok (buf.drop 4)
  else .error .badWireType

/-- Modelled from the spec: merge the fields read off a buffer into an Address
Descriptor.  A truncated value, a field number 0, an end-group tag, a known
field with the wrong wire type and a zone that is not valid UTF-8 are errors;
unknown fields are skipped. -/
def Addrpb.decode : Nat → List Nat → message.Addrpb → Except ProtoError message.Addrpb
  | _, [], a => .ok a
  | 0, _ :: _, _ => .error .outOfFuel
  | fuel + 1, b :: bs, a =>
    match decodeVarint (b :: bs) with
    | .error e => .error e
    | .ok (key, rest) =>
      let field := key >>> 3
      let wire := key % 8
      if wire = 4 then .error .endGroup
      else if field = 0 then .error .illegalTag
      else if field = 1 then
        if wire ≠ WireBytes then .error .badWireType
        else
          match readBytes rest with
          | .error e => .error e
          | .ok (v, r) => Addrpb.decode fuel r { a with Ip := some v }
      else if field = 2 then
        if wire ≠ WireVarint then .error .badWireType
        else
          match decodeVarint rest with
          | .error e => .error e
          | .ok (v, r) => Addrpb.decode fuel r { a with Port := v % u32 }
      else if field = 3 then
        if wire ≠ WireBytes then .error .badWireType
        else
          match readBytes rest with
          | .error e => .error e
          | .ok (v, r) =>
            if validUTF8 v then Addrpb.decode fuel r { a with Zone := v }
            else .error .invalidUTF8
      else
        match skipField fuel wire rest with
        | .error e => .error e
        | .ok r => Addrpb.decode fuel r a

/-- Modelled from the spec: merge the fields read off a buffer into a Header;
the embedded descriptor is merged into the one already there, if any. -/
def Header.decode : Nat → List Nat → Header → Except ProtoError Header
  | _, [], h => .ok h
  | 0, _ :: _, _ => .error .outOfFuel
  | fuel + 1, b :: bs, h =>
    match decodeVarint (b :: bs) with
    | .error e => .error e
    | .ok (key, rest) =>
      let field := key >>> 3
      let wire := key % 8
      if wire = 4 then .error .endGroup
      else if field = 0 then .error .illegalTag
      else if field = 1 then
        if wire ≠ WireVarint then .error .badWireType
        else
          match decodeVarint rest with
          | .error e => .error e
          | .ok (v, r) => Header.decode fuel r { h with Type32 := v % u32 }
      else if field = 2 then
        if wire ≠ WireVarint then .error .badWireType
        else
          match decodeVarint rest with
          | .error e => .error e
          | .ok (v, r) => Header.decode fuel r { h with Id := v % u32 }
      else if field = 3 then
        if wire ≠ WireVarint then .error .badWireType
        else
          match decodeVarint rest with
          | .error e => .error e
          | .ok (v, r) => Header.decode fuel r { h with Flags := v % u32 }
      else if field = 4 then
        if wire ≠ WireBytes then .error .badWireType
        else
          match readBytes rest with
          | .error e => .error e
          | .ok (v, r) => Header.decode fuel r { h with Body := some v }
      else if field = 5 then
        if wire ≠ WireBytes then .error .badWireType
        else
          match readBytes rest with
          | .error e => .error e
          | .ok (v, r) =>
            match Addrpb.decode v.length v (h.Addrpb.getD Addrpb.zero) with
            | .error e => .error e
            | .ok a => Header.decode fuel r { h with Addrpb := some a }
      else
        match skipField fuel wire rest with
        | .error e => .error e
        | .ok r => Header.decode fuel r h

/-- Modelled from the spec: `proto.Marshal` on a header.  The zone is a UTF-8
string on the wire: a header whose zone is not valid UTF-8 is a serialization
error, every other header has an encoding. -/
def proto.MarshalHeader (h : Header) : Except ProtoError (List Nat) :=
  if h.zoneValid then .ok h.encode else .error .invalidUTF8

/-- Modelled from the spec: `proto.Unmarshal` into a fresh header.  Every pass
of the decoder consumes at least one byte, so the length of the buffer bounds
the number of passes. -/
def proto.UnmarshalHeader (buf : List Nat) : Except ProtoError Header :=
  Header.decode buf.length buf Header.zero

/-- Function `Unmarshal`: decode a buffer; on an error the result is nil. -/
def Unmarshal (buf : List Nat) : Option Header :=
  match proto.UnmarshalHeader buf with
  | .error _ => none
  | .ok h => some h

/-- Method `Marshal`: encode a header; on an error the result is nil, the empty
buffer. -/
def Header.Marshal (h : Header) : List Nat :=
  match proto.MarshalHeader h with
  | .error _ => []
  | .ok buf => buf


/-! ## The header as read back, and the wire format in words -/

/-- A byte field as it is read back: an empty sequence is not put on the wire,
so it is read back as the absent one. -/
def wireBytes (b : Option (List Nat)) : Option (List Nat) :=
  if (seq b).length = 0 then none else some (seq b)

/-- An address descriptor as it is read back. -/
def Addrpb.wire (a : message.Addrpb) : message.Addrpb :=
  { Ip := wireBytes a.Ip, Port := a.Port % u32, Zone := a.Zone }

/-- A header as it is read back: integers as 32-bit values, byte fields as
`wireBytes` gives them. -/
def Header.wire (h : Header) : Header :=
  { Type32 := h.Type32 % u32, Id := h.Id % u32, Flags := h.Flags % u32,
    Body := wireBytes h.Body, Addrpb := h.Addrpb.map Addrpb.wire }

/-- The integers of a header, and the port of its address descriptor if it has
one, are `uint32` values. -/
def Header.inRange (h : Header) : Bool :=
  decide (h.Type32 < u32) && decide (h.Id < u32) && decide (h.Flags < u32)
    && (match h.Addrpb with
        | none => true
        | some a => decide (a.Port < u32))

/-- The base-128 varint of a natural number, as the format defines it: groups
of 7 bits, least significant first, every byte but the last with the top bit
set. -/
def base128 (n : Nat) : List Nat :=
  if n < 128 then [n] else (n % 128 + 128) :: base128 (n / 128)
termination_by n
decreasing_by omega

/-- The encoding of an Address Descriptor in the words of the specification:
ip as 0x0A, length, bytes; port as 0x10, varint; zone as 0x1A, length, bytes;
each omitted when empty or zero. -/
def Addrpb.wireFormat (a : message.Addrpb) : List Nat :=
  (if seq a.Ip = [] then [] else [0x0A] ++ base128 (seq a.Ip).length ++ seq a.Ip)
    ++ (if a.Port = 0 then [] else [0x10] ++ base128 a.Port)
    ++ (if a.Zone = [] then [] else [0x1A] ++ base128 a.Zone.length ++ a.Zone)

/-- The encoding of a Header in the words of the specification: type32, id and
flags as 0x08, 0x10, 0x18 and the varint of the value, omitted when 0; body as
0x22, length, bytes, omitted when empty; a present address as 0x2A, length and
the encoding of the descriptor. -/
def Header.wireFormat (h : Header) : List Nat :=
  (if h.Type32 = 0 then [] else [0x08] ++ base128 h.Type32)
    ++ (if h.Id = 0 then [] else [0x10] ++ base128 h.Id)
    ++ (if h.Flags = 0 then [] else [0x18] ++ base128 h.Flags)
    ++ (if seq h.Body = [] then [] else [0x22] ++ base128 (seq h.Body).length ++ seq h.Body)
    ++ (match h.Addrpb with
        | none => []
        | some a => [0x2A] ++ base128 a.wireFormat.length ++ a.wireFormat)

end message

/-! ## Flags: theorems -/

namespace message

/-- A mask passes `CheckFlag` exactly when each of its bits is a bit of the
flags. -/
theorem and_eq_right_iff_testBit (v f : Nat) :
    v &&& f = f ↔ ∀ i, f.testBit i = true → v.testBit i = true := by
  constructor
  · intro h i hi
    have hb : (v &&& f).testBit i = f.testBit i := by rw [h]
    rw [Nat.testBit_and, hi] at hb
    simpa using hb
  · intro h
    apply Nat.eq_of_testBit_eq
    intro i
    rw [Nat.testBit_and]
    cases hf : f.testBit i
    · simp
    · simp [h i hf]

/-- C5: CheckFlag(flag) is true if and only if every bit of flag is set in the
flags of the header, for every flags value and every mask; and
CheckFlag(QueryFlag|ResponseFlag) is true exactly when the bit of value 1 and
the bit of value 2 are both set. -/
theorem CheckFlag_iff_all_bits (h : Header) (flag : Nat) :
    (h.CheckFlag flag = true ↔ ∀ i, flag.testBit i = true → h.Flags.testBit i = true)
    ∧ (h.CheckFlag (QueryFlag ||| ResponseFlag) = true
        ↔ (h.Flags.testBit 0 = true ∧ h.Flags.testBit 1 = true))
    ∧ (h.CheckFlag (QueryFlag ||| ResponseFlag) = true
        ↔ (h.IsQuery = true ∧ h.IsResponse = true)) := by
  have key : ∀ f : Nat, h.CheckFlag f = true
      ↔ ∀ i, f.testBit i = true → h.Flags.testBit i = true := by
    intro f
    unfold Header.CheckFlag
    rw [beq_iff_eq]
    exact and_eq_right_iff_testBit h.Flags f
  have three : ∀ i, Nat.testBit 3 i = true ↔ (i = 0 ∨ i = 1) := by
    intro i
    match i with
    | 0 => decide
    | 1 => decide
    | k + 2 =>
      have h3 : (3 : Nat) < 2 ^ (k + 2) := by
        have : 2 ^ 2 ≤ 2 ^ (k + 2) := Nat.pow_le_pow_right (by decide) (by omega)
        omega
      simp [Nat.testBit_lt_two_pow h3]
  have one : ∀ i, Nat.testBit 1 i = true ↔ i = 0 := by
    intro i
    match i with
    | 0 => decide
    | k + 1 =>
      have h1 : (1 : Nat) < 2 ^ (k + 1) := Nat.one_lt_two_pow (by omega)
      simp [Nat.testBit_lt_two_pow h1]
  have two : ∀ i, Nat.testBit 2 i = true ↔ i = 1 := by
    intro i
    match i with
    | 0 => decide
    | 1 => decide
    | k + 2 =>
      have h2 : (2 : Nat) < 2 ^ (k + 2) := by
        have : 2 ^ 2 ≤ 2 ^ (k + 2) := Nat.pow_le_pow_right (by decide) (by omega)
        omega
      simp [Nat.testBit_lt_two_pow h2]
  have hmask : QueryFlag ||| ResponseFlag = 3 := by decide
  have hq : QueryFlag = 1 := by decide
  have hr : ResponseFlag = 2 := by decide
  have both : h.CheckFlag (QueryFlag ||| ResponseFlag) = true
      ↔ (h.Flags.testBit 0 = true ∧ h.Flags.testBit 1 = true) := by
    rw [key, hmask]
    constructor
    · intro hall
      exact ⟨hall 0 (by decide), hall 1 (by decide)⟩
    · rintro ⟨h0, h1⟩ i hi
      rcases (three i).1 hi with rfl | rfl
      · exact h0
      · exact h1
  refine ⟨key flag, both, ?_⟩
  rw [both]
  unfold Header.IsQuery Header.IsResponse
  rw [key, key, hq, hr]
  constructor
  · rintro ⟨h0, h1⟩
    refine ⟨?_, ?_⟩
    · intro i hi
      rw [(one i).1 hi]
      exact h0
    · intro i hi
      rw [(two i).1 hi]
      exact h1
  · rintro ⟨h0, h1⟩
    exact ⟨h0 0 (by decide), h1 1 (by decide)⟩

/-- C6: SetFlag is idempotent: calling SetFlag(f) twice leaves the same header,
and so the same flags value, as calling it once. -/
theorem SetFlag_idempotent (h : Header) (f : Nat) :
    (h.SetFlag f).SetFlag f = h.SetFlag f
    ∧ ((h.SetFlag f).SetFlag f).Flags = (h.SetFlag f).Flags := by
  have hor : (h.Flags ||| f) ||| f = h.Flags ||| f := by
    rw [Nat.or_assoc, Nat.or_self]
  simp [Header.SetFlag, hor]

/-- C7: on the header with flags 0, UnsetFlag(QueryFlag) leaves flags = 1, so the
non-zero mask QueryFlag passes CheckFlag afterwards although it was to be
removed. -/
theorem UnsetFlag_sets_clear_flag :
    QueryFlag ≠ 0
    ∧ Header.zero.CheckFlag QueryFlag = false
    ∧ (Header.zero.UnsetFlag QueryFlag).Flags = 1
    ∧ (Header.zero.UnsetFlag QueryFlag).CheckFlag QueryFlag = true := by
  decide

/-- C8: UnsetFlag is a bitwise XOR: after UnsetFlag(f) on flags v the flags are
v XOR f, bit by bit, and the other fields are untouched; from flags 0,
UnsetFlag(QueryFlag) yields flags = QueryFlag = 1. -/
theorem UnsetFlag_is_xor (h : Header) (f : Nat) :
    (h.UnsetFlag f).Flags = h.Flags ^^^ f
    ∧ (∀ i, (h.UnsetFlag f).Flags.testBit i = xor (h.Flags.testBit i) (f.testBit i))
    ∧ h.UnsetFlag f = { h with Flags := h.Flags ^^^ f }
    ∧ (({ h with Flags := 0 } : Header).UnsetFlag QueryFlag).Flags = QueryFlag
    ∧ QueryFlag = 1 := by
  refine ⟨rfl, ?_, rfl, ?_, by decide⟩
  · intro i
    simp [Header.UnsetFlag, Nat.testBit_xor]
  · simp [Header.UnsetFlag]

/-! ## The uint32 body: theorems -/

/-- The fixed-width codec decodes what it encodes, whatever follows the four
bytes. -/
theorem serial_roundtrip (o : ByteOrder) (n : Nat) (rest : List Nat) (hn : n < u32) :
    serial.UnmarshalUint32 o (serial.MarshalUint32 o n ++ rest) = some n := by
  unfold u32 at hn
  cases o <;>
    simp only [serial.MarshalUint32, serial.UnmarshalUint32, u32, List.cons_append,
      List.nil_append, Option.some.injEq] <;> omega

/-- C9: for every unsigned 32-bit integer n, after SetBody(n) the body is
exactly 4 bytes long, each of them a byte, and BodyToUint32() returns n. -/
theorem SetBody_uint32_roundtrip (o : ByteOrder) (h : Header) (n : Nat) (hn : n < 2 ^ 32) :
    (seq (h.SetBody o (.uint32 n)).Body).length = 4
    ∧ (∀ b ∈ seq (h.SetBody o (.uint32 n)).Body, b < 256)
    ∧ (h.SetBody o (.uint32 n)).BodyToUint32 o = some n := by
  have hb : (h.SetBody o (.uint32 n)).Body = some (serial.MarshalUint32 o n) := rfl
  have hl : (serial.MarshalUint32 o n).length = 4 := by cases o <;> rfl
  refine ⟨?_, ?_, ?_⟩
  · rw [hb]; exact hl
  · rw [hb]
    intro b hmem
    cases o <;>
      simp only [seq, Option.getD_some, serial.MarshalUint32, List.mem_cons,
        List.mem_singleton, List.not_mem_nil, or_false] at hmem <;>
      omega
  · unfold Header.BodyToUint32
    rw [hb]
    have hs : seq (some (serial.MarshalUint32 o n)) = serial.MarshalUint32 o n ++ [] := by
      simp [seq]
    rw [if_neg (by rw [hs, List.append_nil, hl]; decide), hs]
    exact serial_roundtrip o n [] hn

/-- C9 at n = 42, in both byte orders. -/
theorem SetBody_uint32_roundtrip_witness :
    (Header.zero.SetBody .little (.uint32 42)).BodyToUint32 .little = some 42
    ∧ (Header.zero.SetBody .big (.uint32 42)).BodyToUint32 .big = some 42 :=
  ⟨(SetBody_uint32_roundtrip .little Header.zero 42 (by decide)).2.2,
   (SetBody_uint32_roundtrip .big Header.zero 42 (by decide)).2.2⟩

/-- C10: on a body of fewer than 4 bytes, absent and empty included,
BodyToUint32() returns 0; on a body of 4 or more bytes it returns a value, the
one it returns on the first 4 bytes alone. -/
theorem BodyToUint32_short_and_first4 (o : ByteOrder) (h : Header) :
    ((seq h.Body).length < 4 → h.BodyToUint32 o = some 0)
    ∧ (4 ≤ (seq h.Body).length →
        (∃ v, h.BodyToUint32 o = some v ∧ v < 2 ^ 32)
        ∧ h.BodyToUint32 o
            = Header.BodyToUint32 o { h with Body := some ((seq h.Body).take 4) }) := by
  constructor
  · intro hlt
    simp [Header.BodyToUint32, hlt]
  · intro hge
    match hb : seq h.Body, hge with
    | b0 :: b1 :: b2 :: b3 :: rest, _ =>
      constructor
      · cases o
        · refine ⟨(b0 + 256 * b1 + 65536 * b2 + 16777216 * b3) % u32, ?_, ?_⟩
          · simp [Header.BodyToUint32, hb, serial.UnmarshalUint32]
          · exact Nat.mod_lt _ (by decide)
        · refine ⟨(b3 + 256 * b2 + 65536 * b1 + 16777216 * b0) % u32, ?_, ?_⟩
          · simp [Header.BodyToUint32, hb, serial.UnmarshalUint32]
          · exact Nat.mod_lt _ (by decide)
      · have hb' : h.Body.getD [] = b0 :: b1 :: b2 :: b3 :: rest := hb
        simp [Header.BodyToUint32, serial.UnmarshalUint32, seq, hb']

/-- C10 on a body of one byte, on the absent body and on a body of five
bytes. -/
theorem BodyToUint32_short_and_first4_witness :
    Header.BodyToUint32 .little { Header.zero with Body := some [7] } = some 0
    ∧ Header.BodyToUint32 .big Header.zero = some 0
    ∧ Header.BodyToUint32 .little { Header.zero with Body := some [1, 2, 3, 4, 5] }
        = Header.BodyToUint32 .little { Header.zero with Body := some [1, 2, 3, 4] } :=
  ⟨(BodyToUint32_short_and_first4 .little { Header.zero with Body := some [7] }).1 (by decide),
   (BodyToUint32_short_and_first4 .big Header.zero).1 (by decide),
   ((BodyToUint32_short_and_first4 .little
      { Header.zero with Body := some [1, 2, 3, 4, 5] }).2 (by decide)).2⟩

/-! ## The wire codec: decoding what was encoded -/

theorem decodeVarintAux_encodeVarintAux (k : Nat) :
    ∀ (n : Nat) (rest : List Nat), n < 128 ^ (k + 1) →
      decodeVarintAux (k + 1) (encodeVarintAux (k + 1) n ++ rest) = .ok (n, rest) := by
  induction k with
  | zero =>
    intro n rest hn
    have hn' : n < 128 := by simpa using hn
    simp [encodeVarintAux, decodeVarintAux, hn']
  | succ k ih =>
    intro n rest hn
    by_cases hlt : n < 128
    · simp [encodeVarintAux, decodeVarintAux, hlt]
    · have hdiv : n / 128 < 128 ^ (k + 1) := by
        rw [Nat.div_lt_iff_lt_mul (by decide)]
        rw [pow_succ] at hn
        exact hn
      have hb : ¬ (n % 128 + 128 < 128) := by omega
      rw [encodeVarintAux, if_neg hlt, List.cons_append, decodeVarintAux, if_neg hb,
        ih _ _ hdiv]
      have hval : (n % 128 + 128) % 128 + 128 * (n / 128) = n := by omega
      simp only [hval]

theorem decodeVarint_encodeVarint (n : Nat) (rest : List Nat) :
    decodeVarint (encodeVarint n ++ rest) = .ok (n % 2 ^ 64, rest) := by
  have hlt : n % 2 ^ 64 < 128 ^ (9 + 1) :=
    Nat.lt_of_lt_of_le (Nat.mod_lt _ (by decide)) (by norm_num)
  unfold decodeVarint encodeVarint
  rw [decodeVarintAux_encodeVarintAux 9 _ rest hlt]
  simp

theorem readBytes_encode (b rest : List Nat) (hb : b.length < 2 ^ 64) :
    readBytes (encodeVarint b.length ++ (b ++ rest)) = .ok (b, rest) := by
  unfold readBytes
  rw [decodeVarint_encodeVarint, Nat.mod_eq_of_lt hb]
  simp

theorem tag_values :
    encodeTag 1 WireVarint = [0x08] ∧ encodeTag 2 WireVarint = [0x10]
    ∧ encodeTag 3 WireVarint = [0x18] ∧ encodeTag 4 WireBytes = [0x22]
    ∧ encodeTag 5 WireBytes = [0x2A] ∧ encodeTag 1 WireBytes = [0x0A]
    ∧ encodeTag 3 WireBytes = [0x1A] := by
  decide

theorem mod_u32_mod (v : Nat) : v % u32 % 2 ^ 64 % u32 = v % u32 := by
  unfold u32
  omega

theorem decodeVarint_tag (t : Nat) (ht : t < 128) (rest : List Nat) :
    decodeVarint (t :: rest) = .ok (t, rest) := by
  simp [decodeVarint, decodeVarintAux, ht]
  omega

theorem Addrpb_decode_ip (fuel : Nat) (b rest : List Nat) (acc : message.Addrpb)
    (hb : b.length < 2 ^ 64) :
    Addrpb.decode (fuel + 1) (0x0A :: (encodeVarint b.length ++ (b ++ rest))) acc
      = Addrpb.decode fuel rest { acc with Ip := some b } := by
  rw [Addrpb.decode, decodeVarint_tag _ (by decide)]
  simp [readBytes_encode _ _ hb, WireBytes]

theorem Addrpb_decode_port (fuel : Nat) (v : Nat) (rest : List Nat) (acc : message.Addrpb) :
    Addrpb.decode (fuel + 1) (0x10 :: (encodeVarint v ++ rest)) acc
      = Addrpb.decode fuel rest { acc with Port := v % 2 ^ 64 % u32 } := by
  rw [Addrpb.decode, decodeVarint_tag _ (by decide)]
  simp [decodeVarint_encodeVarint, WireVarint]

theorem Addrpb_decode_zone (fuel : Nat) (b rest : List Nat) (acc : message.Addrpb)
    (hb : b.length < 2 ^ 64) (hv : validUTF8 b = true) :
    Addrpb.decode (fuel + 1) (0x1A :: (encodeVarint b.length ++ (b ++ rest))) acc
      = Addrpb.decode fuel rest { acc with Zone := b } := by
  rw [Addrpb.decode, decodeVarint_tag _ (by decide)]
  simp [readBytes_encode _ _ hb, WireBytes, hv]

theorem Header_decode_type32 (fuel : Nat) (v : Nat) (rest : List Nat) (acc : Header) :
    Header.decode (fuel + 1) (0x08 :: (encodeVarint v ++ rest)) acc
      = Header.decode fuel rest { acc with Type32 := v % 2 ^ 64 % u32 } := by
  rw [Header.decode, decodeVarint_tag _ (by decide)]
  simp [decodeVarint_encodeVarint, WireVarint]

theorem Header_decode_id (fuel : Nat) (v : Nat) (rest : List Nat) (acc : Header) :
    Header.decode (fuel + 1) (0x10 :: (encodeVarint v ++ rest)) acc
      = Header.decode fuel rest { acc with Id := v % 2 ^ 64 % u32 } := by
  rw [Header.decode, decodeVarint_tag _ (by decide)]
  simp [decodeVarint_encodeVarint, WireVarint]

theorem Header_decode_flags (fuel : Nat) (v : Nat) (rest : List Nat) (acc : Header) :
    Header.decode (fuel + 1) (0x18 :: (encodeVarint v ++ rest)) acc
      = Header.decode fuel rest { acc with Flags := v % 2 ^ 64 % u32 } := by
  rw [Header.decode, decodeVarint_tag _ (by decide)]
  simp [decodeVarint_encodeVarint, WireVarint]

theorem Header_decode_body (fuel : Nat) (b rest : List Nat) (acc : Header)
    (hb : b.length < 2 ^ 64) :
    Header.decode (fuel + 1) (0x22 :: (encodeVarint b.length ++ (b ++ rest))) acc
      = Header.decode fuel rest { acc with Body := some b } := by
  rw [Header.decode, decodeVarint_tag _ (by decide)]
  simp [readBytes_encode _ _ hb, WireBytes]

theorem Header_decode_addrpb (fuel : Nat) (e rest : List Nat) (acc : Header)
    (a : message.Addrpb) (he : e.length < 2 ^ 64)
    (hd : Addrpb.decode e.length e (acc.Addrpb.getD Addrpb.zero) = .ok a) :
    Header.decode (fuel + 1) (0x2A :: (encodeVarint e.length ++ (e ++ rest))) acc
      = Header.decode fuel rest { acc with Addrpb := some a } := by
  rw [Header.decode, decodeVarint_tag _ (by decide)]
  simp [readBytes_encode _ _ he, WireBytes, hd]

theorem Addrpb_decode_nil (fuel : Nat) (acc : message.Addrpb) :
    Addrpb.decode fuel [] acc = .ok acc := by
  cases fuel <;> rfl

theorem Header_decode_nil (fuel : Nat) (acc : Header) :
    Header.decode fuel [] acc = .ok acc := by
  cases fuel <;> rfl

theorem encodeBytesField_present (field t : Nat) (b rest : List Nat)
    (ht : encodeTag field WireBytes = [t]) (hb : b.length ≠ 0) :
    encodeBytesField field b ++ rest = t :: (encodeVarint b.length ++ (b ++ rest)) := by
  simp [encodeBytesField, hb, ht]

theorem encodeUint32Field_present (field t v : Nat) (rest : List Nat)
    (ht : encodeTag field WireVarint = [t]) (hv : v % u32 ≠ 0) :
    encodeUint32Field field v ++ rest = t :: (encodeVarint (v % u32) ++ rest) := by
  simp [encodeUint32Field, hv, ht]

theorem Addrpb_decode_ipField (b : Option (List Nat)) (rest : List Nat)
    (acc : message.Addrpb) (R : Except ProtoError message.Addrpb)
    (hacc : acc.Ip = none) (hb : (seq b).length < 2 ^ 64)
    (k : ∀ fuel, rest.length ≤ fuel →
      Addrpb.decode fuel rest { acc with Ip := wireBytes b } = R) :
    ∀ fuel, (encodeBytesField 1 (seq b) ++ rest).length ≤ fuel →
      Addrpb.decode fuel (encodeBytesField 1 (seq b) ++ rest) acc = R := by
  intro fuel hf
  by_cases hz : (seq b).length = 0
  · have hacc' : { acc with Ip := wireBytes b } = acc := by
      cases acc
      simp only [wireBytes, hz, if_true] at *
      simp [hacc]
    have he : encodeBytesField 1 (seq b) = [] := by simp [encodeBytesField, hz]
    rw [he, List.nil_append] at hf ⊢
    rw [← hacc']
    exact k fuel hf
  · rw [encodeBytesField_present 1 0x0A _ _ (by decide) hz] at hf ⊢
    cases fuel with
    | zero => simp at hf
    | succ f =>
      rw [Addrpb_decode_ip f _ _ _ hb]
      have hw : wireBytes b = some (seq b) := by simp [wireBytes, hz]
      rw [← hw]
      apply k
      simp only [List.length_cons, List.length_append] at hf
      omega

theorem Addrpb_decode_portField (v : Nat) (rest : List Nat)
    (acc : message.Addrpb) (R : Except ProtoError message.Addrpb)
    (hacc : acc.Port = 0)
    (k : ∀ fuel, rest.length ≤ fuel →
      Addrpb.decode fuel rest { acc with Port := v % u32 } = R) :
    ∀ fuel, (encodeUint32Field 2 v ++ rest).length ≤ fuel →
      Addrpb.decode fuel (encodeUint32Field 2 v ++ rest) acc = R := by
  intro fuel hf
  by_cases hz : v % u32 = 0
  · have hacc' : { acc with Port := v % u32 } = acc := by
      cases acc
      simp only [hz] at *
      simp [hacc]
    have he : encodeUint32Field 2 v = [] := by simp [encodeUint32Field, hz]
    rw [he, List.nil_append] at hf ⊢
    rw [← hacc']
    exact k fuel hf
  · rw [encodeUint32Field_present 2 0x10 _ _ (by decide) hz] at hf ⊢
    cases fuel with
    | zero => simp at hf
    | succ f =>
      rw [Addrpb_decode_port f, mod_u32_mod]
      apply k
      simp only [List.length_cons, List.length_append] at hf
      omega

theorem Addrpb_decode_zoneField (b : List Nat) (rest : List Nat)
    (acc : message.Addrpb) (R : Except ProtoError message.Addrpb)
    (hacc : acc.Zone = []) (hb : b.length < 2 ^ 64) (hv : validUTF8 b = true)
    (k : ∀ fuel, rest.length ≤ fuel →
      Addrpb.decode fuel rest { acc with Zone := b } = R) :
    ∀ fuel, (encodeBytesField 3 b ++ rest).length ≤ fuel →
      Addrpb.decode fuel (encodeBytesField 3 b ++ rest) acc = R := by
  intro fuel hf
  by_cases hz : b.length = 0
  · have hnil : b = [] := List.length_eq_zero.mp hz
    have hacc' : { acc with Zone := b } = acc := by
      cases acc
      simp only [hnil] at *
      simp [hacc]
    have he : encodeBytesField 3 b = [] := by simp [encodeBytesField, hz]
    rw [he, List.nil_append] at hf ⊢
    rw [← hacc']
    exact k fuel hf
  · rw [encodeBytesField_present 3 0x1A _ _ (by decide) hz] at hf ⊢
    cases fuel with
    | zero => simp at hf
    | succ f =>
      rw [Addrpb_decode_zone f _ _ _ hb hv]
      apply k
      simp only [List.length_cons, List.length_append] at hf
      omega

/-- The decoder reads back the descriptor that was encoded, when its zone is
valid UTF-8. -/
theorem Addrpb_decode_encode (a : message.Addrpb)
    (hip : (seq a.Ip).length < 2 ^ 64) (hzone : a.Zone.length < 2 ^ 64)
    (hv : validUTF8 a.Zone = true) :
    ∀ fuel, (Addrpb.encode a).length ≤ fuel →
      Addrpb.decode fuel (Addrpb.encode a) Addrpb.zero = .ok a.wire := by
  have he : Addrpb.encode a
      = encodeBytesField 1 (seq a.Ip)
          ++ (encodeUint32Field 2 a.Port ++ (encodeBytesField 3 a.Zone ++ [])) := by
    simp [Addrpb.encode]
  rw [he]
  apply Addrpb_decode_ipField _ _ _ _ rfl hip
  apply Addrpb_decode_portField _ _ _ _ rfl
  apply Addrpb_decode_zoneField _ _ _ _ rfl hzone hv
  intro fuel _
  exact Addrpb_decode_nil fuel _

theorem Header_decode_type32Field (v : Nat) (rest : List Nat)
    (acc : Header) (R : Except ProtoError Header) (hacc : acc.Type32 = 0)
    (k : ∀ fuel, rest.length ≤ fuel →
      Header.decode fuel rest { acc with Type32 := v % u32 } = R) :
    ∀ fuel, (encodeUint32Field 1 v ++ rest).length ≤ fuel →
      Header.decode fuel (encodeUint32Field 1 v ++ rest) acc = R := by
  intro fuel hf
  by_cases hz : v % u32 = 0
  · have hacc' : { acc with Type32 := v % u32 } = acc := by
      cases acc
      simp only [hz] at *
      simp [hacc]
    have he : encodeUint32Field 1 v = [] := by simp [encodeUint32Field, hz]
    rw [he, List.nil_append] at hf ⊢
    rw [← hacc']
    exact k fuel hf
  · rw [encodeUint32Field_present 1 0x08 _ _ (by decide) hz] at hf ⊢
    cases fuel with
    | zero => simp at hf
    | succ f =>
      rw [Header_decode_type32 f, mod_u32_mod]
      apply k
      simp only [List.length_cons, List.length_append] at hf
      omega

theorem Header_decode_idField (v : Nat) (rest : List Nat)
    (acc : Header) (R : Except ProtoError Header) (hacc : acc.Id = 0)
    (k : ∀ fuel, rest.length ≤ fuel →
      Header.decode fuel rest { acc with Id := v % u32 } = R) :
    ∀ fuel, (encodeUint32Field 2 v ++ rest).length ≤ fuel →
      Header.decode fuel (encodeUint32Field 2 v ++ rest) acc = R := by
  intro fuel hf
  by_cases hz : v % u32 = 0
  · have hacc' : { acc with Id := v % u32 } = acc := by
      cases acc
      simp only [hz] at *
      simp [hacc]
    have he : encodeUint32Field 2 v = [] := by simp [encodeUint32Field, hz]
    rw [he, List.nil_append] at hf ⊢
    rw [← hacc']
    exact k fuel hf
  · rw [encodeUint32Field_present 2 0x10 _ _ (by decide) hz] at hf ⊢
    cases fuel with
    | zero => simp at hf
    | succ f =>
      rw [Header_decode_id f, mod_u32_mod]
      apply k
      simp only [List.length_cons, List.length_append] at hf
      omega

theorem Header_decode_flagsField (v : Nat) (rest : List Nat)
    (acc : Header) (R : Except ProtoError Header) (hacc : acc.Flags = 0)
    (k : ∀ fuel, rest.length ≤ fuel →
      Header.decode fuel rest { acc with Flags := v % u32 } = R) :
    ∀ fuel, (encodeUint32Field 3 v ++ rest).length ≤ fuel →
      Header.decode fuel (encodeUint32Field 3 v ++ rest) acc = R := by
  intro fuel hf
  by_cases hz : v % u32 = 0
  · have hacc' : { acc with Flags := v % u32 } = acc := by
      cases acc
      simp only [hz] at *
      simp [hacc]
    have he : encodeUint32Field 3 v = [] := by simp [encodeUint32Field, hz]
    rw [he, List.nil_append] at hf ⊢
    rw [← hacc']
    exact k fuel hf
  · rw [encodeUint32Field_present 3 0x18 _ _ (by decide) hz] at hf ⊢
    cases fuel with
    | zero => simp at hf
    | succ f =>
      rw [Header_decode_flags f, mod_u32_mod]
      apply k
      simp only [List.length_cons, List.length_append] at hf
      omega

theorem Header_decode_bodyField (b : Option (List Nat)) (rest : List Nat)
    (acc : Header) (R : Except ProtoError Header)
    (hacc : acc.Body = none) (hb : (seq b).length < 2 ^ 64)
    (k : ∀ fuel, rest.length ≤ fuel →
      Header.decode fuel rest { acc with Body := wireBytes b } = R) :
    ∀ fuel, (encodeBytesField 4 (seq b) ++ rest).length ≤ fuel →
      Header.decode fuel (encodeBytesField 4 (seq b) ++ rest) acc = R := by
  intro fuel hf
  by_cases hz : (seq b).length = 0
  · have hacc' : { acc with Body := wireBytes b } = acc := by
      cases acc
      simp only [wireBytes, hz, if_true] at *
      simp [hacc]
    have he : encodeBytesField 4 (seq b) = [] := by simp [encodeBytesField, hz]
    rw [he, List.nil_append] at hf ⊢
    rw [← hacc']
    exact k fuel hf
  · rw [encodeBytesField_present 4 0x22 _ _ (by decide) hz] at hf ⊢
    cases fuel with
    | zero => simp at hf
    | succ f =>
      rw [Header_decode_body f _ _ _ hb]
      have hw : wireBytes b = some (seq b) := by simp [wireBytes, hz]
      rw [← hw]
      apply k
      simp only [List.length_cons, List.length_append] at hf
      omega

theorem Header_decode_addrpbField (a : Option message.Addrpb) (rest : List Nat)
    (acc : Header) (R : Except ProtoError Header) (hacc : acc.Addrpb = none)
    (ha : ∀ x, a = some x →
      (seq x.Ip).length < 2 ^ 64 ∧ x.Zone.length < 2 ^ 64 ∧ (Addrpb.encode x).length < 2 ^ 64)
    (hz : ∀ x, a = some x → validUTF8 x.Zone = true)
    (k : ∀ fuel, rest.length ≤ fuel →
      Header.decode fuel rest { acc with Addrpb := a.map Addrpb.wire } = R) :
    ∀ fuel, (encodeMessageField 5 (a.map Addrpb.encode) ++ rest).length ≤ fuel →
      Header.decode fuel (encodeMessageField 5 (a.map Addrpb.encode) ++ rest) acc = R := by
  intro fuel hf
  cases a with
  | none =>
    have hacc' : { acc with Addrpb := Option.map Addrpb.wire none } = acc := by
      cases acc
      simp only [Option.map_none'] at *
      simp [hacc]
    have he : encodeMessageField 5 (Option.map Addrpb.encode none) = [] := rfl
    rw [he, List.nil_append] at hf ⊢
    rw [← hacc']
    exact k fuel hf
  | some x =>
    obtain ⟨hip, hzone, hlen⟩ := ha x rfl
    have he : encodeMessageField 5 (Option.map Addrpb.encode (some x)) ++ rest
        = 0x2A :: (encodeVarint (Addrpb.encode x).length ++ (Addrpb.encode x ++ rest)) := by
      have ht : encodeTag 5 WireBytes = [0x2A] := by decide
      simp [encodeMessageField, ht]
    rw [he] at hf ⊢
    cases fuel with
    | zero => simp at hf
    | succ f =>
      have hd : Addrpb.decode (Addrpb.encode x).length (Addrpb.encode x)
          (acc.Addrpb.getD Addrpb.zero) = .ok x.wire := by
        rw [hacc]
        exact Addrpb_decode_encode x hip hzone (hz x rfl) _ (Nat.le_refl _)
      rw [Header_decode_addrpb f _ _ _ x.wire hlen hd]
      apply k
      simp only [List.length_cons, List.length_append] at hf
      omega

/-- The zone of the descriptor of a header with a valid zone is valid UTF-8. -/
theorem zoneValid_zone (h : Header) (hz : h.zoneValid = true) :
    ∀ x, h.Addrpb = some x → validUTF8 x.Zone = true := by
  intro x hx
  unfold Header.zoneValid at hz
  rw [hx] at hz
  exact hz

/-- Marshal returns the encoding of a header whose zone is valid UTF-8. -/
theorem Marshal_eq_encode (h : Header) (hz : h.zoneValid = true) : h.Marshal = h.encode := by
  simp [Header.Marshal, proto.MarshalHeader, hz]

/-- Marshal returns nil, the empty buffer, on a header whose zone is not valid
UTF-8. -/
theorem Marshal_invalid_zone (h : Header) (hz : h.zoneValid = false) : h.Marshal = [] := by
  simp [Header.Marshal, proto.MarshalHeader, hz]

/-- The decoder reads back the header that was encoded, as it is on the wire:
the integers as 32-bit values, an empty body or ip as the absent one. -/
theorem Header_decode_encode (h : Header) (hbody : (seq h.Body).length < 2 ^ 64)
    (ha : ∀ x, h.Addrpb = some x →
      (seq x.Ip).length < 2 ^ 64 ∧ x.Zone.length < 2 ^ 64 ∧ (Addrpb.encode x).length < 2 ^ 64)
    (hz : h.zoneValid = true) :
    ∀ fuel, h.encode.length ≤ fuel → Header.decode fuel h.encode Header.zero = .ok h.wire := by
  have he : h.encode
      = encodeUint32Field 1 h.Type32 ++ (encodeUint32Field 2 h.Id
          ++ (encodeUint32Field 3 h.Flags ++ (encodeBytesField 4 (seq h.Body)
          ++ (encodeMessageField 5 (h.Addrpb.map Addrpb.encode) ++ [])))) := by
    simp [Header.encode]
  rw [he]
  apply Header_decode_type32Field _ _ _ _ rfl
  apply Header_decode_idField _ _ _ _ rfl
  apply Header_decode_flagsField _ _ _ _ rfl
  apply Header_decode_bodyField _ _ _ _ rfl hbody
  apply Header_decode_addrpbField _ _ _ _ rfl ha (zoneValid_zone h hz)
  intro fuel _
  exact Header_decode_nil fuel _

/-- Every part of an encoded header is at most as long as the whole. -/
theorem Header_encode_bounds (h : Header) :
    (seq h.Body).length ≤ h.encode.length
    ∧ ∀ x, h.Addrpb = some x →
        (seq x.Ip).length ≤ h.encode.length ∧ x.Zone.length ≤ h.encode.length
        ∧ (Addrpb.encode x).length ≤ h.encode.length := by
  have hbytes : ∀ (f : Nat) (b : List Nat), b.length ≤ (encodeBytesField f b).length := by
    intro f b
    unfold encodeBytesField
    split
    · omega
    · simp only [List.length_append]; omega
  constructor
  · have := hbytes 4 (seq h.Body)
    simp only [Header.encode, List.length_append]
    omega
  · intro x hx
    have h1 := hbytes 1 (seq x.Ip)
    have h3 := hbytes 3 x.Zone
    have hx' : (Addrpb.encode x).length ≤ h.encode.length := by
      simp only [Header.encode, hx, Option.map_some', encodeMessageField, List.length_append]
      omega
    have hxl : (Addrpb.encode x).length
        = (encodeBytesField 1 (seq x.Ip)).length + (encodeUint32Field 2 x.Port).length
          + (encodeBytesField 3 x.Zone).length := by
      simp only [Addrpb.encode, List.length_append]
    exact ⟨by omega, by omega, hx'⟩

/-- Unmarshal after Marshal gives the header as it is on the wire, for every
header with a valid UTF-8 zone whose encoding fits in a buffer. -/
theorem Unmarshal_Marshal (h : Header) (hz : h.zoneValid = true)
    (hlen : h.Marshal.length < 2 ^ 63) :
    Unmarshal h.Marshal = some h.wire := by
  have hm : h.Marshal = h.encode := Marshal_eq_encode h hz
  rw [hm] at hlen ⊢
  obtain ⟨hb, hx⟩ := Header_encode_bounds h
  have hd := Header_decode_encode h (by omega)
    (fun x hxs => by
      obtain ⟨h1, h2, h3⟩ := hx x hxs
      exact ⟨by omega, by omega, by omega⟩)
    hz h.encode.length (Nat.le_refl _)
  simp [Unmarshal, proto.UnmarshalHeader, hd]

theorem seq_wireBytes (b : Option (List Nat)) : seq (wireBytes b) = seq b := by
  unfold wireBytes
  split
  · rename_i hz
    rw [List.length_eq_zero.mp hz]
    rfl
  · rfl

theorem encodeVarintAux_eq_base128 (k : Nat) :
    ∀ n, n < 128 ^ (k + 1) → encodeVarintAux (k + 1) n = base128 n := by
  induction k with
  | zero =>
    intro n hn
    have hn' : n < 128 := by simpa using hn
    rw [base128]
    simp [encodeVarintAux, hn']
  | succ k ih =>
    intro n hn
    rw [base128, encodeVarintAux]
    by_cases hlt : n < 128
    · simp [hlt]
    · have hdiv : n / 128 < 128 ^ (k + 1) := by
        rw [Nat.div_lt_iff_lt_mul (by decide)]
        rw [pow_succ] at hn
        exact hn
      rw [if_neg hlt, if_neg hlt, ih _ hdiv]

theorem encodeVarint_eq_base128 (n : Nat) (hn : n < 2 ^ 64) : encodeVarint n = base128 n := by
  unfold encodeVarint
  rw [Nat.mod_eq_of_lt hn]
  exact encodeVarintAux_eq_base128 9 n (Nat.lt_of_lt_of_le hn (by norm_num))

theorem Addrpb_encode_eq_wireFormat (a : message.Addrpb) (hp : a.Port < u32)
    (hip : (seq a.Ip).length < 2 ^ 64) (hz : a.Zone.length < 2 ^ 64) :
    a.encode = a.wireFormat := by
  have hp64 : a.Port < 2 ^ 64 := Nat.lt_of_lt_of_le hp (by decide)
  have ht1 : encodeTag 1 WireBytes = [0x0A] := by decide
  have ht2 : encodeTag 2 WireVarint = [0x10] := by decide
  have ht3 : encodeTag 3 WireBytes = [0x1A] := by decide
  unfold Addrpb.encode Addrpb.wireFormat encodeBytesField encodeUint32Field
  rw [Nat.mod_eq_of_lt hp, ht1, ht2, ht3, encodeVarint_eq_base128 _ hip,
    encodeVarint_eq_base128 _ hp64, encodeVarint_eq_base128 _ hz]
  simp only [List.length_eq_zero]

theorem Header_encode_eq_wireFormat (h : Header) (hr : h.inRange = true)
    (hlen : h.encode.length < 2 ^ 64) : h.encode = h.wireFormat := by
  simp only [Header.inRange, Bool.and_eq_true, decide_eq_true_eq] at hr
  obtain ⟨⟨⟨hT, hI⟩, hF⟩, hA⟩ := hr
  have hP : ∀ a, h.Addrpb = some a → a.Port < u32 := by
    intro a ha
    rw [ha] at hA
    simpa using hA
  obtain ⟨hb, hx⟩ := Header_encode_bounds h
  have h64 : ∀ v, v < u32 → v < 2 ^ 64 := fun v hv => Nat.lt_of_lt_of_le hv (by decide)
  have ht1 : encodeTag 1 WireVarint = [0x08] := by decide
  have ht2 : encodeTag 2 WireVarint = [0x10] := by decide
  have ht3 : encodeTag 3 WireVarint = [0x18] := by decide
  have ht4 : encodeTag 4 WireBytes = [0x22] := by decide
  have ht5 : encodeTag 5 WireBytes = [0x2A] := by decide
  have hbody : (seq h.Body).length < 2 ^ 64 := by omega
  unfold Header.encode Header.wireFormat encodeBytesField encodeUint32Field
  rw [Nat.mod_eq_of_lt hT, Nat.mod_eq_of_lt hI, Nat.mod_eq_of_lt hF, ht1, ht2, ht3, ht4,
    encodeVarint_eq_base128 _ (h64 _ hT), encodeVarint_eq_base128 _ (h64 _ hI),
    encodeVarint_eq_base128 _ (h64 _ hF), encodeVarint_eq_base128 _ hbody]
  simp only [List.length_eq_zero]
  congr 1
  cases ha : h.Addrpb with
  | none => rfl
  | some a =>
    obtain ⟨h1, h2, h3⟩ := hx a ha
    have hae : a.encode = a.wireFormat :=
      Addrpb_encode_eq_wireFormat a (hP a ha) (by omega) (by omega)
    have hal : a.wireFormat.length < 2 ^ 64 := by rw [← hae]; omega
    simp only [Option.map_some', encodeMessageField, ht5, hae, encodeVarint_eq_base128 _ hal]

/-! ## The wire codec: round trips, malformed input, wire format -/

/-- C1: for every type code t and every body value b, Unmarshal of the Marshal of
NewHeader(t, b) is a present header whose body is the body of NewHeader(t, b)
as a byte sequence and whose GetType() is t. -/
theorem NewHeader_roundtrip (o : ByteOrder) (rand t : Nat) (b : BodyValue)
    (ht : t < 2 ^ 32) (hlen : (NewHeader o rand t b).Marshal.length < 2 ^ 63) :
    ∃ h2, Unmarshal (NewHeader o rand t b).Marshal = some h2
      ∧ seq h2.Body = seq (NewHeader o rand t b).Body
      ∧ h2.GetType = t := by
  have hz : (NewHeader o rand t b).zoneValid = true := by
    unfold NewHeader Header.SetBody
    split <;> rfl
  refine ⟨(NewHeader o rand t b).wire, Unmarshal_Marshal _ hz hlen, seq_wireBytes _, ?_⟩
  have hty : (NewHeader o rand t b).Type32 = t := by
    unfold NewHeader Header.SetBody
    split <;> rfl
  show (NewHeader o rand t b).Type32 % u32 = t
  rw [hty]
  exact Nat.mod_eq_of_lt ht

/-- C1 on the header of the test: type Test, body "this is a test". -/
theorem NewHeader_roundtrip_witness :
    ∃ h2, Unmarshal (NewHeader .little 7 Test (.string
        [116, 104, 105, 115, 32, 105, 115, 32, 97, 32, 116, 101, 115, 116])).Marshal = some h2
      ∧ seq h2.Body = seq (NewHeader .little 7 Test (.string
        [116, 104, 105, 115, 32, 105, 115, 32, 97, 32, 116, 101, 115, 116])).Body
      ∧ h2.GetType = Test :=
  NewHeader_roundtrip .little 7 Test _ (by decide) (by decide)

/-- C2: for every header to which an address with ip bytes i, port p
(0 <= p < 2^32) and valid UTF-8 zone z has been attached with SetAddr,
Unmarshal of its Marshal is a present header whose address descriptor is
present and has ip = i as a byte sequence, port = p and zone = z. -/
theorem SetAddr_roundtrip (h : Header) (i : Option (List Nat)) (p : Int) (z : List Nat)
    (hp0 : 0 ≤ p) (hp : p < 2 ^ 32) (hz : validUTF8 z = true)
    (hlen : (h.SetAddr { IP := i, Port := p, Zone := z }).Marshal.length < 2 ^ 63) :
    ∃ h2 a2, Unmarshal (h.SetAddr { IP := i, Port := p, Zone := z }).Marshal = some h2
      ∧ h2.Addrpb = some a2
      ∧ seq a2.Ip = seq i ∧ (a2.Port : Int) = p ∧ a2.Zone = z := by
  have hzv : (h.SetAddr { IP := i, Port := p, Zone := z }).zoneValid = true := hz
  refine ⟨_, (FromAddr { IP := i, Port := p, Zone := z }).wire,
    Unmarshal_Marshal _ hzv hlen, rfl, seq_wireBytes _, ?_, rfl⟩
  show (((p % (u32 : Int)).toNat % u32 : Nat) : Int) = p
  unfold u32
  omega

/-- C2 on ip = [127,0,0,1], port = 9000, zone = "", and on the zone "eth0". -/
theorem SetAddr_roundtrip_witness :
    (∃ h2 a2, Unmarshal ((NewHeader .little 7 NetSend .nil).SetAddr
          { IP := some [127, 0, 0, 1], Port := 9000, Zone := [] }).Marshal = some h2
        ∧ h2.Addrpb = some a2
        ∧ seq a2.Ip = seq (some [127, 0, 0, 1]) ∧ (a2.Port : Int) = 9000 ∧ a2.Zone = [])
    ∧ (∃ h2 a2, Unmarshal ((NewHeader .little 7 NetSend .nil).SetAddr
          { IP := some [127, 0, 0, 1], Port := 9000, Zone := [101, 116, 104, 48] }).Marshal
          = some h2
        ∧ h2.Addrpb = some a2
        ∧ seq a2.Ip = seq (some [127, 0, 0, 1]) ∧ (a2.Port : Int) = 9000
        ∧ a2.Zone = [101, 116, 104, 48]) :=
  ⟨SetAddr_roundtrip (NewHeader .little 7 NetSend .nil) (some [127, 0, 0, 1]) 9000 []
      (by decide) (by decide) (by decide) (by decide),
   SetAddr_roundtrip (NewHeader .little 7 NetSend .nil) (some [127, 0, 0, 1]) 9000
      [101, 116, 104, 48] (by decide) (by decide) (by decide) (by decide)⟩

/-- C3: on every buffer of exactly one byte, Unmarshal returns the absent
result: the decoder stops with an error of the wire format. -/
theorem Unmarshal_single_byte (b : Nat) :
    Unmarshal [b] = none
    ∧ ∃ e, proto.UnmarshalHeader [b] = .error e ∧ e ≠ ProtoError.outOfFuel := by
  by_cases hb : b < 128
  · interval_cases b <;> exact ⟨by decide, _, rfl, by decide⟩
  · have hd : proto.UnmarshalHeader [b] = .error .unexpectedEOF := by
      simp [proto.UnmarshalHeader, Header.decode, decodeVarint, decodeVarintAux, hb]
    exact ⟨by simp [Unmarshal, hd], _, hd, by decide⟩

/-- C4, as stated, fails on a header whose zone is not valid UTF-8: with type 6
and the descriptor port 1, zone [255], the integers are 32-bit values and the
format of the claim is [8,6,42,5,16,1,26,1,255], but the zone is a
serialization error and Marshal returns nil, the empty buffer. -/
theorem Marshal_invalid_zone_not_wireFormat :
    Header.inRange
        { Type32 := 6, Id := 0, Flags := 0, Body := none,
          Addrpb := some { Ip := none, Port := 1, Zone := [255] } } = true
    ∧ validUTF8 [255] = false
    ∧ proto.MarshalHeader
        { Type32 := 6, Id := 0, Flags := 0, Body := none,
          Addrpb := some { Ip := none, Port := 1, Zone := [255] } }
      = .error .invalidUTF8
    ∧ Header.Marshal
        { Type32 := 6, Id := 0, Flags := 0, Body := none,
          Addrpb := some { Ip := none, Port := 1, Zone := [255] } } = []
    ∧ Header.wireFormat
        { Type32 := 6, Id := 0, Flags := 0, Body := none,
          Addrpb := some { Ip := none, Port := 1, Zone := [255] } }
      = [0x08, 6, 0x2A, 5, 0x10, 1, 0x1A, 1, 255]
    ∧ Header.Marshal
        { Type32 := 6, Id := 0, Flags := 0, Body := none,
          Addrpb := some { Ip := none, Port := 1, Zone := [255] } }
      ≠ Header.wireFormat
        { Type32 := 6, Id := 0, Flags := 0, Body := none,
          Addrpb := some { Ip := none, Port := 1, Zone := [255] } } := by
  have hw := Header_encode_eq_wireFormat
    { Type32 := 6, Id := 0, Flags := 0, Body := none,
      Addrpb := some { Ip := none, Port := 1, Zone := [255] } } (by decide) (by decide)
  refine ⟨by decide, by decide, rfl, by decide, ?_, ?_⟩
  · rw [← hw]
    decide
  · rw [← hw]
    decide

/-- C4, amended: for every header with 32-bit integers whose address
descriptor, if present, has a valid UTF-8 zone, and whose encoding fits in a
buffer, Marshal returns exactly the concatenation, in field order 1..5, of the
encodings of its non-default fields as the specification words them; a header
whose fields are all default and that has no address marshals to the empty
byte sequence. -/
theorem Marshal_wireFormat (h : Header) (hr : h.inRange = true) (hz : h.zoneValid = true)
    (hlen : h.Marshal.length < 2 ^ 63) :
    h.Marshal = h.wireFormat
    ∧ Header.zero.Marshal = []
    ∧ Header.Marshal { Header.zero with Body := some [] } = [] := by
  refine ⟨?_, by decide, by decide⟩
  have hm : h.Marshal = h.encode := Marshal_eq_encode h hz
  rw [hm] at hlen ⊢
  exact Header_encode_eq_wireFormat h hr (by omega)

/-- C4, amended, on a header with every field set and an address attached, with
the bytes it marshals to. -/
theorem Marshal_wireFormat_witness :
    Header.Marshal
        { Type32 := 4, Id := 70000, Flags := 3, Body := some [1, 2, 3],
          Addrpb := some { Ip := some [127, 0, 0, 1], Port := 9000, Zone := [101] } }
      = Header.wireFormat
        { Type32 := 4, Id := 70000, Flags := 3, Body := some [1, 2, 3],
          Addrpb := some { Ip := some [127, 0, 0, 1], Port := 9000, Zone := [101] } }
    ∧ Header.Marshal
        { Type32 := 4, Id := 70000, Flags := 3, Body := some [1, 2, 3],
          Addrpb := some { Ip := some [127, 0, 0, 1], Port := 9000, Zone := [101] } }
      = [0x08, 4, 0x10, 240, 162, 4, 0x18, 3, 0x22, 3, 1, 2, 3,
          0x2A, 12, 0x0A, 4, 127, 0, 0, 1, 0x10, 168, 70, 0x1A, 1, 101] :=
  ⟨(Marshal_wireFormat _ (by decide) (by decide) (by decide)).1, by decide⟩

/-! ## Bodies, types and flags: further theorems -/

/-- C11: SetBody(nil) leaves the body absent; SetBody(bytes b) leaves body = b;
SetBody(string s) leaves body = the raw bytes of s; SetBody of a value of an
unsupported type leaves the body as it was; and in every case the header that
is returned is the header it was invoked on, with only its body set. -/
theorem SetBody_normalisation (o : ByteOrder) (h : Header) :
    (h.SetBody o .nil).Body = none
    ∧ seq (h.SetBody o .nil).Body = []
    ∧ (∀ b, (h.SetBody o (.bytes b)).Body = b)
    ∧ (∀ s, (h.SetBody o (.string s)).Body = some s ∧ seq (h.SetBody o (.string s)).Body = s)
    ∧ (h.SetBody o .other).Body = h.Body
    ∧ h.SetBody o .other = h
    ∧ (∀ v, h.SetBody o v = { h with Body := (h.SetBody o v).Body }) := by
  refine ⟨rfl, rfl, fun _ => rfl, fun _ => ⟨rfl, rfl⟩, rfl, rfl, ?_⟩
  intro v
  cases v with
  | message buf => cases buf <;> rfl
  | _ => rfl

/-- C12: after SetBody(s) on a string s of any bytes, BodyString() is s byte for
byte; and on every byte-sequence body b, BodyString() has exactly the bytes of
b. -/
theorem BodyString_roundtrip (o : ByteOrder) (h : Header) :
    (∀ s, (h.SetBody o (.string s)).BodyString = s)
    ∧ (∀ b, (h.SetBody o (.bytes b)).BodyString = seq b)
    ∧ (∀ b, Header.BodyString { h with Body := b } = seq b)
    ∧ (∀ b, (Header.BodyString { h with Body := b }).length = (seq b).length) :=
  ⟨fun _ => rfl, fun _ => rfl, fun _ => rfl, fun _ => rfl⟩

/-- A mask of one bit passes `CheckFlag` exactly when that bit is set. -/
theorem CheckFlag_two_pow (h : Header) (k : Nat) :
    h.CheckFlag (2 ^ k) = h.Flags.testBit k := by
  rw [Bool.eq_iff_iff]
  unfold Header.CheckFlag
  rw [beq_iff_eq, and_eq_right_iff_testBit]
  constructor
  · intro hall
    exact hall k Nat.testBit_two_pow_self
  · intro hk i hi
    rw [Nat.testBit_two_pow] at hi
    have hki : k = i := by simpa using hi
    rw [← hki]
    exact hk

/-- Setting one bit does not change what `CheckFlag` says of another bit. -/
theorem SetFlag_two_pow_other (h : Header) (j k : Nat) (hjk : j ≠ k) :
    (h.SetFlag (2 ^ j)).CheckFlag (2 ^ k) = h.CheckFlag (2 ^ k) := by
  rw [CheckFlag_two_pow, CheckFlag_two_pow]
  show (h.Flags ||| 2 ^ j).testBit k = h.Flags.testBit k
  rw [Nat.testBit_or, Nat.testBit_two_pow_of_ne hjk, Bool.or_false]

/-- C13: QueryFlag = 1, ResponseFlag = 2, FromNet = 4, ToNet = 8; IsQuery,
IsResponse, IsFromNet and IsToNet are true exactly when the bit of value 1, 2,
4 and 8 of flags is set; and SetFlag of one of the four does not change the
result of the other three predicates. -/
theorem flag_bits_and_wrappers (h : Header) :
    (QueryFlag = 1 ∧ ResponseFlag = 2 ∧ FromNet = 4 ∧ ToNet = 8)
    ∧ (h.IsQuery = h.Flags.testBit 0 ∧ h.IsResponse = h.Flags.testBit 1
        ∧ h.IsFromNet = h.Flags.testBit 2 ∧ h.IsToNet = h.Flags.testBit 3)
    ∧ ((h.SetFlag QueryFlag).IsResponse = h.IsResponse
        ∧ (h.SetFlag QueryFlag).IsFromNet = h.IsFromNet
        ∧ (h.SetFlag QueryFlag).IsToNet = h.IsToNet)
    ∧ ((h.SetFlag ResponseFlag).IsQuery = h.IsQuery
        ∧ (h.SetFlag ResponseFlag).IsFromNet = h.IsFromNet
        ∧ (h.SetFlag ResponseFlag).IsToNet = h.IsToNet)
    ∧ ((h.SetFlag FromNet).IsQuery = h.IsQuery
        ∧ (h.SetFlag FromNet).IsResponse = h.IsResponse
        ∧ (h.SetFlag FromNet).IsToNet = h.IsToNet)
    ∧ ((h.SetFlag ToNet).IsQuery = h.IsQuery
        ∧ (h.SetFlag ToNet).IsResponse = h.IsResponse
        ∧ (h.SetFlag ToNet).IsFromNet = h.IsFromNet) := by
  have hq : QueryFlag = 2 ^ 0 := by decide
  have hr : ResponseFlag = 2 ^ 1 := by decide
  have hf : FromNet = 2 ^ 2 := by decide
  have ht : ToNet = 2 ^ 3 := by decide
  refine ⟨by decide, ?_, ?_, ?_, ?_, ?_⟩
  · unfold Header.IsQuery Header.IsResponse Header.IsFromNet Header.IsToNet
    rw [hq, hr, hf, ht]
    exact ⟨CheckFlag_two_pow h 0, CheckFlag_two_pow h 1, CheckFlag_two_pow h 2,
      CheckFlag_two_pow h 3⟩
  · unfold Header.IsResponse Header.IsFromNet Header.IsToNet
    rw [hq, hr, hf, ht]
    exact ⟨SetFlag_two_pow_other h 0 1 (by decide), SetFlag_two_pow_other h 0 2 (by decide),
      SetFlag_two_pow_other h 0 3 (by decide)⟩
  · unfold Header.IsQuery Header.IsFromNet Header.IsToNet
    rw [hq, hr, hf, ht]
    exact ⟨SetFlag_two_pow_other h 1 0 (by decide), SetFlag_two_pow_other h 1 2 (by decide),
      SetFlag_two_pow_other h 1 3 (by decide)⟩
  · unfold Header.IsQuery Header.IsResponse Header.IsToNet
    rw [hq, hr, hf, ht]
    exact ⟨SetFlag_two_pow_other h 2 0 (by decide), SetFlag_two_pow_other h 2 1 (by decide),
      SetFlag_two_pow_other h 2 3 (by decide)⟩
  · unfold Header.IsQuery Header.IsResponse Header.IsFromNet
    rw [hq, hr, hf, ht]
    exact ⟨SetFlag_two_pow_other h 3 0 (by decide), SetFlag_two_pow_other h 3 1 (by decide),
      SetFlag_two_pow_other h 3 2 (by decide)⟩

/-- C14: the type codes are the integers 0..13 in the order of their
declaration, and for every type value t, GetType() after SetType(t) returns t
and the stored type32 field is t; SetType changes no other field. -/
theorem type_codes_and_SetType (h : Header) (t : Nat) :
    [Undefined, GetPort, GetIP, RegisterService, Test, Ping, NetSend, NetReceive,
        AddBeacon, GetPubKey, Die, SessionData, StaticKey, RandomKey]
      = [0, 1, 2, 3, 4, 5, 6, 7, 8, 9, 10, 11, 12, 13]
    ∧ (h.SetType t).GetType = t
    ∧ (h.SetType t).Type32 = t
    ∧ h.SetType t = { h with Type32 := t } :=
  ⟨by decide, rfl, rfl, rfl⟩

/-- C16: for every type t, body value b and id r drawn from the random source,
NewHeader(t, b) is a header with type t, id r, flags 0 (only the empty mask
passes CheckFlag, no flag predicate is true), no address descriptor, and the
body SetBody(b) produces on the empty header: absent when b is nil or of an
unsupported type. -/
theorem NewHeader_fresh (o : ByteOrder) (r t : Nat) (b : BodyValue) :
    (NewHeader o r t b).GetType = t
    ∧ (NewHeader o r t b).Type32 = t
    ∧ (NewHeader o r t b).Id = r
    ∧ (NewHeader o r t b).Flags = 0
    ∧ (∀ f, (NewHeader o r t b).CheckFlag f = (f == 0))
    ∧ ((NewHeader o r t b).IsQuery = false ∧ (NewHeader o r t b).IsResponse = false
        ∧ (NewHeader o r t b).IsFromNet = false ∧ (NewHeader o r t b).IsToNet = false)
    ∧ (NewHeader o r t b).Addrpb = none
    ∧ (NewHeader o r t b).GetAddr = none
    ∧ (NewHeader o r t b).Body = (Header.zero.SetBody o b).Body
    ∧ (NewHeader o r t .nil).Body = none
    ∧ (NewHeader o r t .other).Body = none := by
  have hfields : (NewHeader o r t b).Type32 = t ∧ (NewHeader o r t b).Id = r
      ∧ (NewHeader o r t b).Flags = 0 ∧ (NewHeader o r t b).Addrpb = none
      ∧ (NewHeader o r t b).Body = (Header.zero.SetBody o b).Body := by
    cases b with
    | message buf => cases buf <;> exact ⟨rfl, rfl, rfl, rfl, rfl⟩
    | _ => exact ⟨rfl, rfl, rfl, rfl, rfl⟩
  obtain ⟨hT, hI, hF, hA, hB⟩ := hfields
  have hcheck : ∀ f, (NewHeader o r t b).CheckFlag f = (f == 0) := by
    intro f
    unfold Header.CheckFlag
    rw [hF, Nat.zero_and, Bool.eq_iff_iff, beq_iff_eq, beq_iff_eq]
    exact eq_comm
  refine ⟨hT, hT, hI, hF, hcheck, ⟨?_, ?_, ?_, ?_⟩, hA, ?_, hB, rfl, rfl⟩
  · exact hcheck QueryFlag
  · exact hcheck ResponseFlag
  · exact hcheck FromNet
  · exact hcheck ToNet
  · unfold Header.GetAddr
    rw [hA]

/-- C17: when CheckFlag(f) is true beforehand, after UnsetFlag(f) every bit of f
is clear in flags and every bit outside f is unchanged: the result is flags AND
NOT f, bit by bit and, for 32-bit values, as the 32-bit value. -/
theorem UnsetFlag_clears_set_flag (h : Header) (f : Nat) (hset : h.CheckFlag f = true) :
    (∀ i, f.testBit i = true → (h.UnsetFlag f).Flags.testBit i = false)
    ∧ (∀ i, f.testBit i = false → (h.UnsetFlag f).Flags.testBit i = h.Flags.testBit i)
    ∧ (∀ i, (h.UnsetFlag f).Flags.testBit i = (h.Flags.testBit i && !f.testBit i))
    ∧ (h.Flags < u32 → f < u32 → (h.UnsetFlag f).Flags = h.Flags &&& (u32 - 1 - f)) := by
  have hsub : ∀ i, f.testBit i = true → h.Flags.testBit i = true := by
    unfold Header.CheckFlag at hset
    rw [beq_iff_eq] at hset
    exact (and_eq_right_iff_testBit h.Flags f).1 hset
  have hx : ∀ i, (h.UnsetFlag f).Flags.testBit i
      = xor (h.Flags.testBit i) (f.testBit i) := by
    intro i
    show (h.Flags ^^^ f).testBit i = _
    rw [Nat.testBit_xor]
  have hbits : ∀ i, (h.UnsetFlag f).Flags.testBit i = (h.Flags.testBit i && !f.testBit i) := by
    intro i
    rw [hx]
    cases hf : f.testBit i
    · simp
    · simp [hsub i hf]
  refine ⟨?_, ?_, hbits, ?_⟩
  · intro i hf
    rw [hbits, hf]
    simp
  · intro i hf
    rw [hbits, hf]
    simp
  · intro hv hf32
    apply Nat.eq_of_testBit_eq
    intro i
    have hcompl : u32 - 1 - f = 2 ^ 32 - (f + 1) := by unfold u32; omega
    rw [hbits, Nat.testBit_and, hcompl, Nat.testBit_two_pow_sub_succ hf32]
    by_cases hi : i < 32
    · simp [hi]
    · have hle : 2 ^ 32 ≤ 2 ^ i := Nat.pow_le_pow_right (by decide) (by omega)
      have hvi : h.Flags.testBit i = false :=
        Nat.testBit_lt_two_pow (Nat.lt_of_lt_of_le hv hle)
      simp [hvi]

/-- C17 on flags 7 and the mask QueryFlag|FromNet = 5: the flags become 2. -/
theorem UnsetFlag_clears_set_flag_witness :
    Header.CheckFlag { Header.zero with Flags := 7 } 5 = true
    ∧ (Header.UnsetFlag { Header.zero with Flags := 7 } 5).Flags = 7 &&& (u32 - 1 - 5)
    ∧ (Header.UnsetFlag { Header.zero with Flags := 7 } 5).Flags = 2 :=
  ⟨by decide,
   (UnsetFlag_clears_set_flag { Header.zero with Flags := 7 } 5 (by decide)).2.2.2
     (by decide) (by decide),
   by decide⟩

/-- C18: after SetFlag(f) on flags v the flags are v OR f, CheckFlag(f) is true,
every mask that passed CheckFlag before still passes, and the type, id, body
and address of the header are unchanged. -/
theorem SetFlag_postcondition (h : Header) (f : Nat) :
    (h.SetFlag f).Flags = h.Flags ||| f
    ∧ (h.SetFlag f).CheckFlag f = true
    ∧ (∀ g, h.CheckFlag g = true → (h.SetFlag f).CheckFlag g = true)
    ∧ (h.SetFlag f).Type32 = h.Type32
    ∧ (h.SetFlag f).Id = h.Id
    ∧ (h.SetFlag f).Body = h.Body
    ∧ (h.SetFlag f).Addrpb = h.Addrpb := by
  have hiff : ∀ (x : Header) (g : Nat), x.CheckFlag g = true
      ↔ ∀ i, g.testBit i = true → x.Flags.testBit i = true := by
    intro x g
    unfold Header.CheckFlag
    rw [beq_iff_eq]
    exact and_eq_right_iff_testBit x.Flags g
  have hor : ∀ i, (h.SetFlag f).Flags.testBit i = (h.Flags.testBit i || f.testBit i) := by
    intro i
    show (h.Flags ||| f).testBit i = _
    rw [Nat.testBit_or]
  refine ⟨rfl, ?_, ?_, rfl, rfl, rfl, rfl⟩
  · rw [hiff]
    intro i hi
    rw [hor, hi, Bool.or_true]
  · intro g hg
    rw [hiff] at hg ⊢
    intro i hi
    rw [hor, hg i hi, Bool.true_or]

/-- C18 on flags 1 (QueryFlag) and SetFlag(FromNet): the mask 1 still passes. -/
theorem SetFlag_postcondition_witness :
    Header.CheckFlag (Header.SetFlag { Header.zero with Flags := 1 } FromNet) QueryFlag = true
    ∧ (Header.SetFlag { Header.zero with Flags := 1 } FromNet).Flags = 5 :=
  ⟨(SetFlag_postcondition { Header.zero with Flags := 1 } FromNet).2.2.1 QueryFlag (by decide),
   by decide⟩

/-! ## Addresses: theorems -/

/-- C15, as stated, fails on a port outside the 32-bit range: on port -1 the
descriptor has port 4294967295, on port 2^32 it has port 0, and the address
read back from the descriptor is not the address that was given. -/
theorem FromAddr_port_out_of_range :
    (FromAddr { IP := some [127, 0, 0, 1], Port := -1, Zone := [] }).Port = 4294967295
    ∧ ((FromAddr { IP := some [127, 0, 0, 1], Port := -1, Zone := [] }).Port : Int) ≠ -1
    ∧ (FromAddr { IP := some [127, 0, 0, 1], Port := -1, Zone := [] }).GetAddr.Port ≠ -1
    ∧ (FromAddr { IP := some [127, 0, 0, 1], Port := 4294967296, Zone := [] }).Port = 0
    ∧ (FromAddr { IP := some [127, 0, 0, 1], Port := 4294967296, Zone := [] }).GetAddr.Port
        ≠ 4294967296 := by
  decide

/-- C15, amended: for every network address a whose port is in 0..2^32-1 (ip
bytes of any length, any zone), FromAddr(a) is a descriptor with ip = a.ip,
port = a.port and zone = a.zone, FromAddr(a).GetAddr() is a again, also through
SetAddr and GetAddr of a header; for a header with no address descriptor
GetAddr() returns absent. -/
theorem FromAddr_GetAddr_roundtrip (a : rnet.Addr) (h : Header)
    (hp0 : 0 ≤ a.Port) (hp : a.Port < 2 ^ 32) :
    (FromAddr a).Ip = a.IP
    ∧ ((FromAddr a).Port : Int) = a.Port
    ∧ (FromAddr a).Zone = a.Zone
    ∧ (FromAddr a).GetAddr = a
    ∧ (h.SetAddr a).GetAddr = some a
    ∧ Header.GetAddr { h with Addrpb := none } = none := by
  have hport : ((FromAddr a).Port : Int) = a.Port := by
    show (((a.Port % (u32 : Int)).toNat : Nat) : Int) = a.Port
    unfold u32
    omega
  have hget : (FromAddr a).GetAddr = a := by
    cases a with
    | mk ip port zone =>
      simp only [Addrpb.GetAddr, rnet.NewAddr, rnet.Addr.mk.injEq]
      exact ⟨rfl, hport, rfl⟩
  refine ⟨rfl, hport, rfl, hget, ?_, rfl⟩
  show some (FromAddr a).GetAddr = some a
  rw [hget]

/-- C15, amended, on ip = [127,0,0,1], port = 9000, zone = "". -/
theorem FromAddr_GetAddr_roundtrip_witness :
    (FromAddr { IP := some [127, 0, 0, 1], Port := 9000, Zone := [] }).GetAddr
      = { IP := some [127, 0, 0, 1], Port := 9000, Zone := [] } :=
  (FromAddr_GetAddr_roundtrip { IP := some [127, 0, 0, 1], Port := 9000, Zone := [] }
    Header.zero (by decide) (by decide)).2.2.2.1

/-! ## The wire codec: the empty buffer and the whole envelope -/

/-- C19: Unmarshal of the zero-length buffer is a present header with type
Undefined (0), id 0, flags 0, no body and no address descriptor; so no positive
length is a minimum below which every buffer is rejected. -/
theorem Unmarshal_empty :
    Unmarshal [] = some Header.zero
    ∧ (∃ h, Unmarshal [] = some h ∧ h.GetType = Undefined ∧ h.Id = 0 ∧ h.Flags = 0
        ∧ seq h.Body = [] ∧ h.Body = none ∧ h.Addrpb = none ∧ h.GetAddr = none)
    ∧ proto.UnmarshalHeader [] = .ok Header.zero
    ∧ ¬ ∃ n, 0 < n ∧ ∀ buf : List Nat, buf.length < n → Unmarshal buf = none := by
  refine ⟨rfl, ⟨Header.zero, rfl, rfl, rfl, rfl, rfl, rfl, rfl, rfl⟩, rfl, ?_⟩
  rintro ⟨n, hn, hall⟩
  have hnone : Unmarshal [] = none := hall [] hn
  have hsome : Unmarshal [] = some Header.zero := rfl
  rw [hsome] at hnone
  exact absurd hnone (by simp)

/-- C20: for every header h with 32-bit type, id and flags, any body, and an
address absent or present with a valid UTF-8 zone, whose encoding fits in a
buffer, Unmarshal of h.Marshal() is a present header with the same type, id and
flags as h, so the same answer to every CheckFlag, a body equal to the body of
h as a byte sequence, and an address descriptor present exactly when h has
one, with the same port and zone and the same ip bytes. -/
theorem Marshal_Unmarshal_envelope (h : Header)
    (hT : h.Type32 < 2 ^ 32) (hI : h.Id < 2 ^ 32) (hF : h.Flags < 2 ^ 32)
    (hz : h.zoneValid = true) (hlen : h.Marshal.length < 2 ^ 63) :
    ∃ h2, Unmarshal h.Marshal = some h2
      ∧ h2.GetType = h.GetType ∧ h2.Id = h.Id ∧ h2.Flags = h.Flags
      ∧ (∀ f, h2.CheckFlag f = h.CheckFlag f)
      ∧ seq h2.Body = seq h.Body
      ∧ h2.Addrpb.isSome = h.Addrpb.isSome
      ∧ h2.Addrpb = h.Addrpb.map Addrpb.wire := by
  have hfl : h.wire.Flags = h.Flags := Nat.mod_eq_of_lt hF
  refine ⟨h.wire, Unmarshal_Marshal h hz hlen, Nat.mod_eq_of_lt hT, Nat.mod_eq_of_lt hI, hfl,
    ?_, seq_wireBytes _, ?_, rfl⟩
  · intro f
    unfold Header.CheckFlag
    rw [hfl]
  · show (h.Addrpb.map Addrpb.wire).isSome = h.Addrpb.isSome
    cases h.Addrpb <;> rfl

/-- C20 on a header with every field set and an address attached, its zone
"eth0". -/
theorem Marshal_Unmarshal_envelope_witness :
    ∃ h2, Unmarshal (Header.Marshal
        { Type32 := 6, Id := 4000000000, Flags := 9, Body := some [1, 2, 3],
          Addrpb := some { Ip := some [127, 0, 0, 1], Port := 9000,
                           Zone := [101, 116, 104, 48] } }) = some h2
      ∧ h2.Id = 4000000000 ∧ h2.Flags = 9 ∧ h2.Addrpb.isSome = true := by
  obtain ⟨h2, hu, _, hid, hfl, _, _, ha, _⟩ := Marshal_Unmarshal_envelope
    { Type32 := 6, Id := 4000000000, Flags := 9, Body := some [1, 2, 3],
      Addrpb := some { Ip := some [127, 0, 0, 1], Port := 9000,
                       Zone := [101, 116, 104, 48] } }
    (by decide) (by decide) (by decide) (by decide) (by decide)
  exact ⟨h2, hu, hid, hfl, ha⟩

end message
